import Mathlib

/-!
Verification development for the theme-resolution and live-reload cache of a
Markdown slide-deck editor extension, together with its workspace asset proxy.

The development shallowly embeds:
* the path normalization logic (`Themes.normalizePaths`) together with models
  of Node's POSIX `path.resolve` / `path.relative` and of JS string splitting;
* the size-preset metadata loop of `Themes.getSizePresets`;
* the theme cache (`Themes.observedThemes`, `registerTheme`, the file-watcher
  change/delete handlers, `dispose`, `getRegisteredStyles`) as a state machine
  whose atomic segments are the synchronous runs between `await` suspension
  points of the single-threaded cooperative scheduler;
* the GET handler of the workspace proxy server.
-/

/-! ## JS string helpers -/

/-- Model of JS `String.prototype.startsWith`: the data of `pre` is a list
prefix of the data of `s`. -/
def strStartsWith (s pre : String) : Bool :=
  pre.data.isPrefixOf s.data

/-- Source predicate `isRemotePath`: a reference starting with `https:` or
`http:` is a remote URL. -/
def isRemotePath (p : String) : Bool :=
  strStartsWith p "https:" || strStartsWith p "http:"

/-- Character class `[a-z0-9.+-]` of the virtual-path scheme regex. -/
def isSchemeChar (c : Char) : Bool :=
  (decide ('a' ≤ c) && decide (c ≤ 'z')) || (decide ('0' ≤ c) && decide (c ≤ '9'))
    || decide (c = '.') || decide (c = '+') || decide (c = '-')

/-- Word character (`\w`), used by the trailing `\b` of the regex. -/
def isWordChar (c : Char) : Bool :=
  c.isAlphanum || decide (c = '_')

/-- Source predicate `isVirtualPath`: the regex
`^[a-z0-9.+-]+:\/\/\b` — a nonempty scheme of scheme characters, then `://`,
then a word boundary (i.e. the next character is a word character). -/
def isVirtualPath (p : String) : Bool :=
  let sch := p.data.takeWhile isSchemeChar
  let rest := p.data.drop sch.length
  decide (sch ≠ []) &&
    (match rest with
     | ':' :: '/' :: '/' :: c :: _ => isWordChar c
     | _ => false)

/-! ## Model of Node's POSIX path functions

Paths here are absolute POSIX paths (vscode file URIs yield absolute
`fsPath`s); a path is split into its nonempty `/`-separated segments,
`.`/`..` segments are processed, and the result joined back. -/

/-- Split a character list into its maximal nonempty runs of non-`/`
characters (the path segments); empty pieces are dropped, exactly as Node's
path normalization treats repeated slashes. -/
def segsAux : List Char → List Char → List String
  | [], cur => if cur.isEmpty then [] else [String.mk cur]
  | c :: rest, cur =>
    if c = '/' then
      if cur.isEmpty then segsAux rest [] else String.mk cur :: segsAux rest []
    else segsAux rest (cur ++ [c])

/-- The `/`-separated segments of a path string. -/
def segsOf (s : String) : List String :=
  segsAux s.data []

/-- Join segments with `/` (model of Node's `path.posix` join of segments). -/
def joinSegs : List String → String
  | [] => ""
  | [x] => x
  | x :: y :: rest => x ++ "/" ++ joinSegs (y :: rest)

/-- Render an absolute path from its segments. -/
def joinAbs (segs : List String) : String :=
  "/" ++ joinSegs segs

/-- Segment normalization of an absolute path: `""` and `"."` segments are
dropped, `".."` pops the previous segment (and is dropped at the root), all
other segments are kept.  `acc` is the reversed list of kept segments. -/
def normSegsAux (acc : List String) : List String → List String
  | [] => acc.reverse
  | s :: rest =>
    if s = "" ∨ s = "." then normSegsAux acc rest
    else if s = ".." then normSegsAux (acc.drop 1) rest
    else normSegsAux (s :: acc) rest

/-- The normalized segment list of an absolute path string. -/
def pathSegments (s : String) : List String :=
  normSegsAux [] (segsOf s)

/-- Segments of Node's `path.resolve(base, p)` for an absolute `base`: an
absolute `p` ignores the base, otherwise `p`'s segments are appended to the
base's, and the concatenation is normalized. -/
def resolveSegs (base p : String) : List String :=
  if strStartsWith p "/" then normSegsAux [] (segsOf p)
  else normSegsAux [] (segsOf base ++ segsOf p)

/-- Model of Node's POSIX `path.resolve(base, p)` for an absolute `base`. -/
def pathResolve (base p : String) : String :=
  joinAbs (resolveSegs base p)

/-- Length of the common prefix of two segment lists. -/
def commonPrefixLen : List String → List String → Nat
  | a :: as, b :: bs => if a = b then commonPrefixLen as bs + 1 else 0
  | _, _ => 0

/-- Model of Node's POSIX `path.relative(from, to)` for absolute arguments:
normalize both, strip the common segment prefix, go up with `..` for each
remaining `from` segment, then down the remaining `to` segments. -/
def pathRelative (f t : String) : String :=
  joinSegs
    (List.replicate
        ((pathSegments f).length - commonPrefixLen (pathSegments f) (pathSegments t)) ".."
      ++ (pathSegments t).drop (commonPrefixLen (pathSegments f) (pathSegments t)))

/-! ## Uri model

A vscode `Uri`, restricted to the fields the source reads: `scheme` and
`path`.  `fsPath` is modelled for POSIX file URIs with empty authority, where
it coincides with `path`; `toString` is modelled as
`scheme://path` (authority empty, no percent-encoding). -/

structure Uri where
  scheme : String
  path : String
deriving DecidableEq, Repr

/-- Model of `Uri.fsPath` (POSIX, empty authority): the path itself. -/
def Uri.fsPath (u : Uri) : String := u.path

/-- Model of `Uri.toString` (empty authority, no percent-encoding). -/
def Uri.render (u : Uri) : String := u.scheme ++ "://" ++ u.path

/-! ## WHATWG URL pathname, as used by `new URL(p, 'dummy://dummy/')`

Only the `pathname` component is consumed by the source.  The model: strip
query and fragment; a reference carrying its own scheme keeps its own path
(the part of the remainder from the first `/` after the authority, `/` when
absent); otherwise the reference is resolved against the dummy base's root
path `/` with dot-segment removal.  Parse failures of the URL constructor
(exotic malformed inputs) are modelled by the protocol-relative form with an
empty authority, returning `none`. -/

/-- Substring after the first occurrence of `sep`, when present. -/
def afterFirst (sep s : String) : Option String :=
  match s.splitOn sep with
  | [] => none
  | [_] => none
  | _ :: rest => some (String.intercalate sep rest)

/-- Path component of an `authority/path` remainder: from the first `/`. -/
def pathFromAuthority (s : String) : String :=
  let p := String.mk (s.data.dropWhile (fun c => decide (c ≠ '/')))
  if p = "" then "/" else p

/-- Pathname of `new URL(p, 'dummy://dummy/')`, as an `Option` mirroring the
`try`/`catch` around the constructor. -/
def urlPathname (p : String) : Option String :=
  let core := String.mk (p.data.takeWhile (fun c => decide (c ≠ '?') && decide (c ≠ '#')))
  if isVirtualPath core then (afterFirst "://" core).map pathFromAuthority
  else if strStartsWith core "//" then none
  else some (joinAbs (normSegsAux [] (segsOf core)))

/-! ## `Themes.normalizePaths` -/

/-- Insertion-ordered set add (JS `Set.prototype.add`). -/
def setAdd (l : List String) (x : String) : List String :=
  if x ∈ l then l else l ++ [x]

/-- One loop iteration of `Themes.normalizePaths` for reference `p`.
(The `typeof p !== 'string'` guard of the source is vacuous here, the
embedded reference list being homogeneous.) -/
def normalizeStep (rootUri : Option Uri) (acc : List String) (p : String) : List String :=
  if isRemotePath p then setAdd acc p
  else
    match rootUri with
    | none => acc
    | some root =>
      if root.scheme = "file" then
        if ¬ strStartsWith (pathRelative root.fsPath (pathResolve root.fsPath p)) ".." then
          setAdd acc (pathResolve root.fsPath p)
        else acc
      else
        match urlPathname p with
        | some relativePath => setAdd acc (Uri.render { root with path := root.path ++ relativePath })
        | none => acc

/-- Source method `Themes.normalizePaths`: fold the per-reference step over an
insertion-ordered set, returning its values. -/
def normalizePaths (paths : List String) (rootUri : Option Uri) : List String :=
  paths.foldl (normalizeStep rootUri) []

/-! ## JS `Map` as an insertion-ordered association list -/

/-- JS `Map.prototype.get`: value of the (unique) entry for `k`. -/
def mapGet {α : Type} : List (String × α) → String → Option α
  | [], _ => none
  | (k', v) :: rest, k => if k' = k then some v else mapGet rest k

/-- JS `Map.prototype.set`: replace in place when the key is present
(keeping its position), append otherwise. -/
def mapSet {α : Type} : List (String × α) → String → α → List (String × α)
  | [], k, v => [(k, v)]
  | (k', v') :: rest, k, v =>
    if k' = k then (k, v) :: rest else (k', v') :: mapSet rest k v

/-- JS `Map.prototype.delete`: drop the entry for `k`.  The keys of a JS
`Map` are unique, so dropping every entry for `k` coincides with dropping
the one entry. -/
def mapDelete {α : Type} (m : List (String × α)) (k : String) : List (String × α) :=
  m.filter (fun kv => decide (kv.1 ≠ k))

/-! ## Size presets (`Themes.getSizePresets`) -/

/-- Structure `SizePreset` from the source. -/
structure SizePreset where
  height : String
  name : String
  width : String
deriving DecidableEq, Repr

/-- Model of JS `s.split(/\s+/)`: pieces of `s` between maximal whitespace
runs, including an empty leading piece when `s` starts with whitespace and an
empty trailing piece when it ends with one.  The fuel starts above the
character count and never runs out. -/
def jsSplitWsAux : Nat → List Char → String → List String
  | 0, _, cur => [cur]
  | _ + 1, [], cur => [cur]
  | fuel + 1, c :: rest, cur =>
    if c.isWhitespace then cur :: jsSplitWsAux fuel (rest.dropWhile Char.isWhitespace) ""
    else jsSplitWsAux fuel rest (cur.push c)

/-- JS `size.split(/\s+/)` from the source's metadata loop. -/
def jsSplitWs (s : String) : List String :=
  jsSplitWsAux (s.data.length + 1) s.data ""

/-- One iteration of the metadata loop of `Themes.getSizePresets`: a
three-token line (re)defines the named preset, a two-token line whose second
token is `false` deletes it, anything else is ignored. -/
def sizeStep (sizes : List (String × SizePreset)) (size : String) : List (String × SizePreset) :=
  match jsSplitWs size with
  | [n, w, h] => mapSet sizes n { height := h, name := n, width := w }
  | [n, b] => if b = "false" then mapDelete sizes n else sizes
  | _ => sizes

/-- The metadata-application loop of `Themes.getSizePresets` (the theme
lookup and the `getThemeMeta` call belong to the external Marp library, which
supplies `sizeMeta`): fold the per-line step over a JS `Map` and return its
values in insertion order. -/
def getSizePresetsFromMeta (sizeMeta : List String) : List SizePreset :=
  (sizeMeta.foldl sizeStep []).map Prod.snd

/-! ## The theme cache as a state machine

All I/O of the source is `await`-based cooperative concurrency: a run of an
async function between two suspension points is atomic.  The machine state
records the cache map `observedThemes`, the log of fetches started (one entry
per `readFile`/`fetch` call issued by `registerTheme`), the set of disposed
event-subscription handles, a fresh-handle counter, and the number of
`markdown.preview.refresh` commands issued.  Handles are numbered in creation
order: `registerTheme` allocates the `onDidChange` handle and then the
`onDidDelete` handle of the watcher it installs. -/

/-- Enumeration `ThemeType` from the source. -/
inductive ThemeType
  | File
  | Remote
  | VirtualFS
deriving DecidableEq, Repr

/-- Record `Theme` from the source.  `onDidChange`/`onDidDelete` hold watcher
subscription handles; `registered` is the optional boolean field, `false`
standing for the absent (undefined, falsy) value. -/
structure Theme where
  css : String
  onDidChange : Option Nat := none
  onDidDelete : Option Nat := none
  path : String
  registered : Bool := false
  type : ThemeType
deriving DecidableEq, Repr

/-- Machine state of a `Themes` instance plus its observable side effects. -/
structure Sys where
  observedThemes : List (String × Theme) := []
  fetchLog : List String := []
  disposedHandles : List Nat := []
  nextHandle : Nat := 0
  refreshCount : Nat := 0
deriving DecidableEq, Repr

/-- External collaborators: the content produced by a (successful) fetch of
each key, and the `markdown.marp.themes` configuration value. -/
structure Env where
  fetchCss : String → String
  themesConf : Option (List String)

/-- Source method `Themes.getPathsFromConf`: normalize the configured theme list when it is
a nonempty array, else no paths. -/
def getPathsFromConf (env : Env) (rootUri : Option Uri) : List String :=
  match env.themesConf with
  | some themes => if 0 < themes.length then normalizePaths themes rootUri else []
  | none => []

/-- Source method `Themes.getRegisteredStyles`: look each configured key up in the cache
map and keep the hits, in the normalizer's key order. -/
def getRegisteredStyles (env : Env) (s : Sys) (rootUri : Option Uri) : List Theme :=
  (getPathsFromConf env rootUri).filterMap (mapGet s.observedThemes)

/-- Outcome of the synchronous prologue of `registerTheme`. -/
inductive RegOutcome
  | done (t : Theme)
  | pending
deriving DecidableEq, Repr

/-- The source-kind classification IIFE of `registerTheme`. -/
def classifyType (themePath : String) : ThemeType :=
  if isRemotePath themePath then ThemeType.Remote
  else if isVirtualPath themePath then ThemeType.VirtualFS
  else ThemeType.File

/-- Whether `registerTheme` obtains a watcher pattern for the key: always for
a local file, never for a remote URL; for a virtual URI exactly when
`Uri.parse(themePath, true)` and `new URL('.', themePath)` succeed, which for
a key already classified as `VirtualFS` (a well-formed `scheme://` URI) they
do — modelled by the same syntactic test as the classification. -/
def watcherPatternFor (t : ThemeType) (themePath : String) : Bool :=
  match t with
  | ThemeType.File => true
  | ThemeType.VirtualFS => isVirtualPath themePath
  | ThemeType.Remote => false

/-- Atomic segment 1 of `registerTheme(themePath)` (lines up to the `await`
of the CSS fetch): return the cached record as-is when the key is present;
otherwise start the fetch and suspend. -/
def registerThemeCheck (s : Sys) (themePath : String) : Sys × RegOutcome :=
  match mapGet s.observedThemes themePath with
  | some theme => (s, RegOutcome.done theme)
  | none => ({ s with fetchLog := s.fetchLog ++ [themePath] }, RegOutcome.pending)

/-- Atomic segment 2 of `registerTheme(themePath)` (from the completion of
the CSS fetch to the `return`): build the record, install the watcher and its
two event subscriptions when a pattern exists, store the record in the cache
map, and return a copy marked `registered`. -/
def registerThemeResume (env : Env) (s : Sys) (themePath : String) : Sys × Theme :=
  let t := classifyType themePath
  let css := env.fetchCss themePath
  let registeredTheme : Theme := { css := css, path := themePath, type := t }
  if watcherPatternFor t themePath then
    let withWatch : Theme :=
      { registeredTheme with
        onDidChange := some s.nextHandle
        onDidDelete := some (s.nextHandle + 1) }
    ({ s with
        nextHandle := s.nextHandle + 2
        observedThemes := mapSet s.observedThemes themePath withWatch },
      { withWatch with registered := true })
  else
    ({ s with observedThemes := mapSet s.observedThemes themePath registeredTheme },
      { registeredTheme with registered := true })

/-- A `registerTheme` call run to completion with no interleaving. -/
def registerThemeRun (env : Env) (s : Sys) (themePath : String) : Sys × Theme :=
  match registerThemeCheck s themePath with
  | (s1, RegOutcome.done t) => (s1, t)
  | (s1, RegOutcome.pending) => registerThemeResume env s1 themePath

/-- Atomic segment 1 of the watcher `onDidChange` handler for key `k` whose
change subscription handle is `hc`: dispose that subscription, delete the
stale record, and run the prologue of the nested `registerTheme(k)` call up
to its suspension. -/
def changeHandlerStart (s : Sys) (k : String) (hc : Nat) : Sys × RegOutcome :=
  let s1 := { s with disposedHandles := s.disposedHandles ++ [hc] }
  let s2 := { s1 with observedThemes := mapDelete s1.observedThemes k }
  registerThemeCheck s2 k

/-- Atomic remainder of the `onDidChange` handler: finish the nested
`registerTheme` call (when it suspended) and issue the
`markdown.preview.refresh` command. -/
def changeHandlerFinish (env : Env) (s : Sys) (k : String) : RegOutcome → Sys
  | RegOutcome.done _ => { s with refreshCount := s.refreshCount + 1 }
  | RegOutcome.pending =>
    let s1 := (registerThemeResume env s k).1
    { s1 with refreshCount := s1.refreshCount + 1 }

/-- The `onDidChange` handler run to completion with no interleaving. -/
def runChangeHandler (env : Env) (s : Sys) (k : String) (hc : Nat) : Sys :=
  match changeHandlerStart s k hc with
  | (s1, out) => changeHandlerFinish env s1 k out

/-- The (fully synchronous) watcher `onDidDelete` handler for key `k` whose
delete subscription handle is `hd`: dispose that subscription and delete the
record; no re-resolution, no refresh. -/
def deleteHandler (s : Sys) (k : String) (hd : Nat) : Sys :=
  { s with
    disposedHandles := s.disposedHandles ++ [hd]
    observedThemes := mapDelete s.observedThemes k }

/-- Handles of one record disposed by `Themes.dispose` (`onDidChange` first,
then `onDidDelete`), appended to the already-disposed list. -/
def disposeThemeHandles (acc : List Nat) (t : Theme) : List Nat :=
  let acc1 := match t.onDidChange with
    | some h => acc ++ [h]
    | none => acc
  match t.onDidDelete with
  | some h => acc1 ++ [h]
  | none => acc1

/-- Source method `Themes.dispose`: dispose both event subscriptions of every cached
record, then clear the cache map. -/
def dispose (s : Sys) : Sys :=
  { s with
    disposedHandles := s.observedThemes.foldl (fun acc kt => disposeThemeHandles acc kt.2) s.disposedHandles
    observedThemes := [] }

/-! ## Workspace proxy server (`createWorkspaceProxyServer`) -/

/-- Node's POSIX `path.extname`: from the last `.` of the basename, unless
that `.` is the basename's first character; empty when the basename has no
dot. -/
def extname (p : String) : String :=
  let b := (p.data.reverse.takeWhile (fun c => decide (c ≠ '/'))).reverse
  let ext := b.reverse.takeWhile (fun c => decide (c ≠ '.'))
  if ext.length = b.length ∨ ext.length + 1 = b.length then ""
  else String.mk ('.' :: ext.reverse)

/-- Representative model of the MIME table behind express's `res.type`,
keyed by the extension (with its leading dot). -/
def mimeOf (ext : String) : String :=
  if ext = ".css" then "text/css"
  else if ext = ".html" then "text/html"
  else if ext = ".js" then "application/javascript"
  else if ext = ".json" then "application/json"
  else if ext = ".png" then "image/png"
  else "application/octet-stream"

/-- Injective stand-in for `new Date(ms).toUTCString()`. -/
def toUTCString (ms : Nat) : String :=
  "UTC:" ++ toString ms

/-- A vscode `FileStat`, restricted to the fields the handler reads.
`FileType.Directory = 2`; the directory test is `type & 2`. -/
structure FileStat where
  type : Nat
  mtime : Nat
  size : Nat
deriving DecidableEq, Repr

/-- Body of an express response: a sent buffer or a sent text. -/
inductive RespBody
  | buffer (data : List Nat)
  | text (s : String)
deriving DecidableEq, Repr

/-- The express response object, as the headers/status/body the handler
assigns (all initially unset). -/
structure Response where
  contentType : Option String := none
  contentLength : Option String := none
  lastModified : Option String := none
  status : Option Nat := none
  body : Option RespBody := none
deriving DecidableEq, Repr

/-- The shared `res.status(404).send('Not found')` tail of the handler. -/
def notFound (r : Response) : Response :=
  { r with status := some 404, body := some (RespBody.text "Not found") }

/-- The GET handler of `createWorkspaceProxyServer`, as a function of the
request URL's pathname and of the results of the `workspace.fs.stat` and
`workspace.fs.readFile` calls on the mapped resource (`Except String`
mirrors a thrown error, carrying its message).  `res.type` is applied when
the pathname has an extension; the stat's size and mtime headers are set
before the directory test; a directory, a stat error, or a read error all
fall through to the 404 tail. -/
def handleGet (pathname : String) (stat : Except String FileStat)
    (reads : Except String (List Nat)) : Response :=
  let urlExt := extname pathname
  let r1 : Response :=
    if urlExt ≠ "" then { contentType := some (mimeOf urlExt) } else {}
  match stat with
  | Except.error _ => notFound r1
  | Except.ok fileStat =>
    let r2 := { r1 with
      contentLength := some (toString fileStat.size)
      lastModified := some (toUTCString fileStat.mtime) }
    if fileStat.type &&& 2 = 0 then
      match reads with
      | Except.ok data => { r2 with status := some 200, body := some (RespBody.buffer data) }
      | Except.error _ => notFound r2
    else notFound r2

/-! ## Concrete scenario states -/

/-- A fetch environment returning a fixed stylesheet, with one configured
theme path `a.css`. -/
def envB : Env :=
  { fetchCss := fun _ => "section-color-red"
    themesConf := some ["a.css"] }

/-- A file-scheme workspace root. -/
def rootB : Uri := ⟨"file", "/base"⟩

/-- The canonical key of the single configured theme under `rootB`. -/
def keyB : String := "/base/a.css"

/-- State after one completed registration of `keyB` from the empty cache:
the record holds change handle 0 and delete handle 1. -/
def sReg : Sys := (registerThemeRun envB {} keyB).1

/-- Two logically concurrent `registerTheme` calls for the unregistered key
`keyB`, interleaved by the cooperative scheduler so that both prologues run
before either resolution completes. -/
def twoConcurrentRuns : Sys :=
  let s1 := (registerThemeCheck {} keyB).1
  let s2 := (registerThemeCheck s1 keyB).1
  let s3 := (registerThemeResume envB s2 keyB).1
  (registerThemeResume envB s3 keyB).1

/-! ## Association-list lemmas -/

theorem mapGet_mapSet_self {α : Type} (m : List (String × α)) (k : String) (v : α) :
    mapGet (mapSet m k v) k = some v := by
  induction m with
  | nil => simp [mapSet, mapGet]
  | cons kv rest ih =>
    obtain ⟨k', v'⟩ := kv
    by_cases h : k' = k
    · simp [mapSet, mapGet, h]
    · simp [mapSet, mapGet, h, ih]

theorem mapGet_mapDelete_self {α : Type} (m : List (String × α)) (k : String) :
    mapGet (mapDelete m k) k = none := by
  induction m with
  | nil => simp [mapDelete, mapGet]
  | cons kv rest ih =>
    by_cases h : kv.1 = k
    · simpa [mapDelete, List.filter, h] using ih
    · simpa [mapDelete, List.filter, h, mapGet] using ih

/-! ## Claim C4: size-preset precedence -/

/-- C4.  `getSizePresets` applies size-metadata lines in declaration order
with last-writer-wins semantics: a three-token line `name w h` (re)defines
the preset for `name`, a two-token line `name false` removes it, and the
lines `["a 4:3 false", "a 16 9", "a 16 9", "b 4 3"]` yield exactly the
presets `a: 16x9` and `b: 4x3`. -/
theorem C4_size_presets :
    getSizePresetsFromMeta ["a 4:3 false", "a 16 9", "a 16 9", "b 4 3"] =
      [{ height := "9", name := "a", width := "16" },
       { height := "3", name := "b", width := "4" }]
    ∧ (∀ (sizes : List (String × SizePreset)) (line n w h : String),
        jsSplitWs line = [n, w, h] →
        sizeStep sizes line = mapSet sizes n { height := h, name := n, width := w })
    ∧ (∀ (sizes : List (String × SizePreset)) (line n : String),
        jsSplitWs line = [n, "false"] →
        sizeStep sizes line = mapDelete sizes n) := by
  refine ⟨by decide, ?_, ?_⟩
  · intro sizes line n w h hsplit
    simp [sizeStep, hsplit]
  · intro sizes line n hsplit
    simp [sizeStep, hsplit]

/-- Witness for C4 at a concrete metadata line. -/
theorem C4_size_presets_witness :
    sizeStep [] "x 10 20" = mapSet [] "x" { height := "20", name := "x", width := "10" } :=
  C4_size_presets.2.1 [] "x 10 20" "x" "10" "20" (by decide)

/-! ## Claim C1: request coalescing -/

/-- C1 counterexample.  Two logically concurrent `registerTheme` calls for
the same unregistered key, both of whose prologues run before either
resolution completes, perform two fetches of the key — not exactly one. -/
theorem C1_counterexample :
    twoConcurrentRuns.fetchLog = [keyB, keyB] ∧ twoConcurrentRuns.fetchLog.length ≠ 1 := by
  decide

/-- C1 amended.  Only completed registrations are coalesced: a
`registerTheme` call for a key already stored in the cache map performs no
fetch and returns the stored record unchanged, while logically concurrent
calls for the same unregistered key that all begin before the first
resolution completes each perform their own fetch. -/
theorem C1_amended_coalescing :
    (∀ (s : Sys) (k : String) (t : Theme),
        mapGet s.observedThemes k = some t →
        registerThemeCheck s k = (s, RegOutcome.done t))
    ∧ twoConcurrentRuns.fetchLog.length = 2 := by
  refine ⟨?_, by decide⟩
  intro s k t h
  simp [registerThemeCheck, h]

/-- Witness for C1 amended at the state holding one completed
registration. -/
theorem C1_amended_coalescing_witness :
    registerThemeCheck sReg keyB =
      (sReg, RegOutcome.done
        { css := "section-color-red", onDidChange := some 0, onDidDelete := some 1,
          path := keyB, registered := false, type := ThemeType.File }) :=
  C1_amended_coalescing.1 sReg keyB _ (by decide)

/-! ## Claim C2: atomicity of invalidate, re-resolve, re-install watch -/

/-- C2 counterexample.  From a state with a registered record for the
configured key, the change handler's first atomic segment removes the stale
record and suspends at the re-resolution fetch; a caller of
`getRegisteredStyles` interleaved at that suspension point observes the
state in which the old record has been removed but the new one is not yet
stored. -/
theorem C2_counterexample :
    (getRegisteredStyles envB sReg (some rootB)).length = 1
    ∧ getRegisteredStyles envB (changeHandlerStart sReg keyB 0).1 (some rootB) = [] := by
  decide

/-- C2 amended.  The invalidate/re-resolve/re-install sequence is not atomic:
between the removal of the stale record and the completion of re-resolution
the key is observably absent from the cache map (callers see the key missing,
never a partial record), and once the handler's resumption runs the key maps
to a freshly resolved record again. -/
theorem C2_amended_window :
    (∀ (s : Sys) (k : String) (hc : Nat),
        mapGet ((changeHandlerStart s k hc).1).observedThemes k = none
        ∧ (changeHandlerStart s k hc).2 = RegOutcome.pending)
    ∧ (∀ (env : Env) (s1 : Sys) (k : String),
        mapGet (changeHandlerFinish env s1 k RegOutcome.pending).observedThemes k =
          some { css := env.fetchCss k
                 onDidChange := if watcherPatternFor (classifyType k) k then some s1.nextHandle else none
                 onDidDelete := if watcherPatternFor (classifyType k) k then some (s1.nextHandle + 1) else none
                 path := k
                 registered := false
                 type := classifyType k }) := by
  constructor
  · intro s k hc
    have hdel := mapGet_mapDelete_self
      ({ s with disposedHandles := s.disposedHandles ++ [hc] }).observedThemes k
    constructor
    · simp [changeHandlerStart, registerThemeCheck, hdel]
    · simp [changeHandlerStart, registerThemeCheck, hdel]
  · intro env s1 k
    by_cases hw : watcherPatternFor (classifyType k) k = true
    · simp [changeHandlerFinish, registerThemeResume, hw, mapGet_mapSet_self]
    · simp at hw
      simp [changeHandlerFinish, registerThemeResume, hw, mapGet_mapSet_self]

/-! ## Claim C5: the stored record and the `registered` flag -/

/-- C5 counterexample.  After a successful resolution of the configured key
from the empty cache, the record stored in the cache map has
`registered = false` (the field is never set on the stored object); only the
value returned to the caller is marked registered. -/
theorem C5_counterexample :
    mapGet sReg.observedThemes keyB =
      some { css := "section-color-red", onDidChange := some 0, onDidDelete := some 1,
             path := keyB, registered := false, type := ThemeType.File }
    ∧ (registerThemeRun envB {} keyB).2.registered = true := by
  decide

/-- C5 amended.  For every key whose resolution succeeds, the record stored
in the cache map is NOT marked registered (the optional field stays absent);
the caller of the fresh resolution receives a copy of the stored record with
`registered = true`. -/
theorem C5_amended_registered :
    ∀ (env : Env) (s : Sys) (k : String),
      mapGet s.observedThemes k = none →
      ∃ stored : Theme,
        mapGet ((registerThemeRun env s k).1).observedThemes k = some stored
        ∧ stored.registered = false
        ∧ (registerThemeRun env s k).2 = { stored with registered := true } := by
  intro env s k h
  by_cases hw : watcherPatternFor (classifyType k) k = true
  · refine ⟨{ css := env.fetchCss k, onDidChange := some s.nextHandle,
              onDidDelete := some (s.nextHandle + 1), path := k,
              registered := false, type := classifyType k }, ?_, rfl, ?_⟩ <;>
      simp [registerThemeRun, registerThemeCheck, registerThemeResume, h, hw, mapGet_mapSet_self]
  · simp at hw
    refine ⟨{ css := env.fetchCss k, path := k, registered := false,
              type := classifyType k }, ?_, rfl, ?_⟩ <;>
      simp [registerThemeRun, registerThemeCheck, registerThemeResume, h, hw, mapGet_mapSet_self]

/-- Witness for C5 amended at the empty cache. -/
theorem C5_amended_registered_witness :
    ∃ stored : Theme,
      mapGet ((registerThemeRun envB {} keyB).1).observedThemes keyB = some stored
      ∧ stored.registered = false
      ∧ (registerThemeRun envB {} keyB).2 = { stored with registered := true } :=
  C5_amended_registered envB {} keyB (by decide)

/-! ## Claims C6 and C7: watcher subscriptions and handlers -/

theorem mem_disposeThemeHandles_of_mem (acc : List Nat) (t : Theme) (h : Nat)
    (hm : h ∈ acc) : h ∈ disposeThemeHandles acc t := by
  unfold disposeThemeHandles
  cases t.onDidChange <;> cases t.onDidDelete <;> simp [hm]

theorem mem_disposeThemeHandles_change (acc : List Nat) (t : Theme) (h : Nat)
    (hc : t.onDidChange = some h) : h ∈ disposeThemeHandles acc t := by
  unfold disposeThemeHandles
  rw [hc]
  cases t.onDidDelete <;> simp

theorem mem_disposeThemeHandles_delete (acc : List Nat) (t : Theme) (h : Nat)
    (hd : t.onDidDelete = some h) : h ∈ disposeThemeHandles acc t := by
  unfold disposeThemeHandles
  rw [hd]
  cases t.onDidChange <;> simp

theorem mem_foldl_disposeHandles (m : List (String × Theme)) (acc : List Nat) (h : Nat)
    (hm : h ∈ acc) :
    h ∈ m.foldl (fun acc kt => disposeThemeHandles acc kt.2) acc := by
  induction m generalizing acc with
  | nil => simpa using hm
  | cons kt rest ih =>
    exact ih _ (mem_disposeThemeHandles_of_mem acc kt.2 h hm)

theorem handle_collected (m : List (String × Theme)) (acc : List Nat)
    (k : String) (t : Theme) (h : Nat) (hget : mapGet m k = some t) :
    (t.onDidChange = some h →
      h ∈ m.foldl (fun acc kt => disposeThemeHandles acc kt.2) acc)
    ∧ (t.onDidDelete = some h →
      h ∈ m.foldl (fun acc kt => disposeThemeHandles acc kt.2) acc) := by
  induction m generalizing acc with
  | nil => simp [mapGet] at hget
  | cons kt rest ih =>
    obtain ⟨k', v⟩ := kt
    by_cases hk : k' = k
    · have hv : v = t := by simpa [mapGet, hk] using hget
      subst hv
      constructor
      · intro hc
        exact mem_foldl_disposeHandles rest _ h (mem_disposeThemeHandles_change acc v h hc)
      · intro hd
        exact mem_foldl_disposeHandles rest _ h (mem_disposeThemeHandles_delete acc v h hd)
    · have hget' : mapGet rest k = some t := by simpa [mapGet, hk] using hget
      exact ih _ hget'

/-- C6 counterexample.  Invalidation by a change event does not release the
whole change/delete subscription of the stale record: after the change
handler for the registered key runs to completion, the old change
subscription (handle 0) is disposed but the old delete subscription
(handle 1) is not. -/
theorem C6_counterexample :
    (0 : Nat) ∈ (runChangeHandler envB sReg keyB 0).disposedHandles
    ∧ (1 : Nat) ∉ (runChangeHandler envB sReg keyB 0).disposedHandles := by
  decide

/-- C6 amended.  A change event releases only the change subscription of the
stale record (its resumption disposes nothing further, so the old delete
subscription is never released by the change flow); a delete event releases
only the delete subscription and removes the record; `dispose()` releases
both the change and the delete subscription of every record in the cache
map, clears the map, and is idempotent. -/
theorem C6_amended_handles :
    (∀ (s : Sys) (k : String) (hc : Nat),
        ((changeHandlerStart s k hc).1).disposedHandles = s.disposedHandles ++ [hc])
    ∧ (∀ (env : Env) (s : Sys) (k : String) (out : RegOutcome),
        (changeHandlerFinish env s k out).disposedHandles = s.disposedHandles)
    ∧ (∀ (s : Sys) (k : String) (hd : Nat),
        (deleteHandler s k hd).disposedHandles = s.disposedHandles ++ [hd]
        ∧ mapGet (deleteHandler s k hd).observedThemes k = none)
    ∧ (∀ (s : Sys) (k : String) (t : Theme) (h : Nat),
        mapGet s.observedThemes k = some t →
        (t.onDidChange = some h → h ∈ (dispose s).disposedHandles)
        ∧ (t.onDidDelete = some h → h ∈ (dispose s).disposedHandles))
    ∧ (∀ s : Sys, (dispose s).observedThemes = [] ∧ dispose (dispose s) = dispose s) := by
  refine ⟨?_, ?_, ?_, ?_, ?_⟩
  · intro s k hc
    unfold changeHandlerStart registerThemeCheck
    cases hcase : mapGet (mapDelete s.observedThemes k) k <;> simp [hcase]
  · intro env s k out
    cases out with
    | done t => simp [changeHandlerFinish]
    | pending =>
      simp only [changeHandlerFinish, registerThemeResume]
      split <;> simp
  · intro s k hd
    exact ⟨rfl, mapGet_mapDelete_self s.observedThemes k⟩
  · intro s k t h hget
    exact handle_collected s.observedThemes s.disposedHandles k t h hget
  · intro s
    exact ⟨rfl, rfl⟩

/-- Witness for C6 amended: `dispose` of the one-record state releases the
record's change subscription. -/
theorem C6_amended_handles_witness :
    (0 : Nat) ∈ (dispose sReg).disposedHandles :=
  (C6_amended_handles.2.2.2.1 sReg keyB
    { css := "section-color-red", onDidChange := some 0, onDidDelete := some 1,
      path := keyB, registered := false, type := ThemeType.File } 0 (by decide)).1 (by decide)

/-- C7.  For a watched key (a local file, or a virtual URI whose pattern
derivation succeeds): the change handler detaches its own subscription,
removes the stale record (observably, at its suspension point), re-resolves
the same key with exactly one fresh fetch, stores a fresh record carrying a
newly installed watch, and issues one preview refresh; the delete handler
detaches its own subscription and removes the record with no re-resolution
and no refresh. -/
theorem C7_watch_refresh :
    (∀ (env : Env) (s : Sys) (k : String) (hc : Nat),
        watcherPatternFor (classifyType k) k = true →
        mapGet ((changeHandlerStart s k hc).1).observedThemes k = none
        ∧ hc ∈ (runChangeHandler env s k hc).disposedHandles
        ∧ (runChangeHandler env s k hc).fetchLog = s.fetchLog ++ [k]
        ∧ mapGet (runChangeHandler env s k hc).observedThemes k =
            some { css := env.fetchCss k, onDidChange := some s.nextHandle,
                   onDidDelete := some (s.nextHandle + 1), path := k,
                   registered := false, type := classifyType k }
        ∧ (runChangeHandler env s k hc).refreshCount = s.refreshCount + 1)
    ∧ (∀ (s : Sys) (k : String) (hd : Nat),
        hd ∈ (deleteHandler s k hd).disposedHandles
        ∧ mapGet (deleteHandler s k hd).observedThemes k = none
        ∧ (deleteHandler s k hd).fetchLog = s.fetchLog
        ∧ (deleteHandler s k hd).refreshCount = s.refreshCount) := by
  constructor
  · intro env s k hc hw
    have hdel := mapGet_mapDelete_self
      ({ s with disposedHandles := s.disposedHandles ++ [hc] }).observedThemes k
    refine ⟨?_, ?_, ?_, ?_, ?_⟩ <;>
      simp [runChangeHandler, changeHandlerStart, changeHandlerFinish, registerThemeCheck,
        registerThemeResume, hdel, hw, mapGet_mapSet_self]
  · intro s k hd
    exact ⟨by simp [deleteHandler], mapGet_mapDelete_self s.observedThemes k, rfl, rfl⟩

/-- Witness for C7 at the registered local-file key. -/
theorem C7_watch_refresh_witness :
    (runChangeHandler envB sReg keyB 0).refreshCount = sReg.refreshCount + 1 :=
  (C7_watch_refresh.1 envB sReg keyB 0 (by decide)).2.2.2.2

/-! ## Path lemmas for the traversal guard (claim C3) -/

theorem isPrefixOf_append_self : ∀ (l t : List Char), l.isPrefixOf (l ++ t) = true
  | [], _ => by simp [List.isPrefixOf]
  | c :: cs, t => by simp [List.isPrefixOf, isPrefixOf_append_self cs t]

theorem strStartsWith_append (pre rest : String) : strStartsWith (pre ++ rest) pre = true := by
  simp [strStartsWith, String.data_append, isPrefixOf_append_self]

theorem strStartsWith_joinSegs_dotdot : ∀ (xs : List String),
    strStartsWith (joinSegs (".." :: xs)) ".." = true
  | [] => by decide
  | y :: rest => by
    rw [joinSegs, String.append_assoc]
    exact strStartsWith_append ".." ("/" ++ joinSegs (y :: rest))

theorem commonPrefixLen_le_left : ∀ (a b : List String), commonPrefixLen a b ≤ a.length
  | [], _ => Nat.le_refl 0
  | _ :: _, [] => Nat.zero_le _
  | x :: xs, y :: ys => by
    by_cases h : x = y
    · have := commonPrefixLen_le_left xs ys
      simp only [commonPrefixLen, h, if_true, List.length_cons]
      omega
    · simp [commonPrefixLen, h]

theorem commonPrefixLen_eq_length : ∀ (a b : List String),
    commonPrefixLen a b = a.length → a <+: b
  | [], b, _ => ⟨b, rfl⟩
  | _ :: xs, [], h => by simp [commonPrefixLen] at h
  | x :: xs, y :: ys, h => by
    by_cases hxy : x = y
    · subst hxy
      have h' : commonPrefixLen xs ys = xs.length := by
        simpa [commonPrefixLen] using h
      obtain ⟨t, ht⟩ := commonPrefixLen_eq_length xs ys h'
      exact ⟨t, by simp [ht]⟩
    · simp [commonPrefixLen, hxy] at h

theorem mem_normSegsAux : ∀ (l acc : List String) (s : String), s ∈ normSegsAux acc l →
    s ∈ acc ∨ (s ∈ l ∧ s ≠ "" ∧ s ≠ "." ∧ s ≠ "..")
  | [], acc, s, h => Or.inl (by simpa [normSegsAux] using h)
  | x :: rest, acc, s, h => by
    by_cases h1 : x = "" ∨ x = "."
    · rcases mem_normSegsAux rest acc s (by simpa [normSegsAux, h1] using h) with h2 | h2
      · exact Or.inl h2
      · exact Or.inr ⟨List.mem_cons_of_mem x h2.1, h2.2⟩
    · by_cases h2 : x = ".."
      · rcases mem_normSegsAux rest (acc.drop 1) s
          (by simpa [normSegsAux, h1, h2] using h) with h3 | h3
        · exact Or.inl (List.drop_subset 1 acc h3)
        · exact Or.inr ⟨List.mem_cons_of_mem x h3.1, h3.2⟩
      · rcases mem_normSegsAux rest (x :: acc) s
          (by simpa [normSegsAux, h1, h2] using h) with h3 | h3
        · rcases List.mem_cons.mp h3 with h4 | h4
          · rw [h4]
            push_neg at h1
            exact Or.inr ⟨List.mem_cons_self x rest, h1.1, h1.2, h2⟩
          · exact Or.inl h4
        · exact Or.inr ⟨List.mem_cons_of_mem x h3.1, h3.2⟩

theorem normSegsAux_eq_append : ∀ (l acc : List String),
    (∀ s ∈ l, s ≠ "" ∧ s ≠ "." ∧ s ≠ "..") →
    normSegsAux acc l = acc.reverse ++ l
  | [], acc, _ => by simp [normSegsAux]
  | x :: rest, acc, h => by
    have hx := h x (List.mem_cons_self x rest)
    have e : normSegsAux acc (x :: rest) = normSegsAux (x :: acc) rest := by
      simp [normSegsAux, hx.1, hx.2.1, hx.2.2]
    rw [e, normSegsAux_eq_append rest (x :: acc)
      (fun s hs => h s (List.mem_cons_of_mem x hs))]
    simp

theorem segsAux_clean : ∀ (cs cur : List Char), (∀ c ∈ cur, c ≠ '/') →
    ∀ s ∈ segsAux cs cur, s.data ≠ [] ∧ ∀ c ∈ s.data, c ≠ '/'
  | [], cur, hcur, s, hs => by
    cases cur with
    | nil => simp [segsAux] at hs
    | cons c0 cs0 =>
      have hs' : s = String.mk (c0 :: cs0) := by
        simpa [segsAux, List.isEmpty] using hs
      subst hs'
      exact ⟨by simp, hcur⟩
  | c :: rest, cur, hcur, s, hs => by
    by_cases hc : c = '/'
    · subst hc
      cases cur with
      | nil =>
        exact segsAux_clean rest [] (by simp) s (by simpa [segsAux] using hs)
      | cons c0 cs0 =>
        have hs' : s = String.mk (c0 :: cs0) ∨ s ∈ segsAux rest [] := by
          simpa [segsAux, List.isEmpty] using hs
        rcases hs' with h | h
        · subst h
          exact ⟨by simp, hcur⟩
        · exact segsAux_clean rest [] (by simp) s h
    · have hcur' : ∀ c' ∈ cur ++ [c], c' ≠ '/' := by
        intro c' hmem
        rcases List.mem_append.mp hmem with h | h
        · exact hcur c' h
        · simp at h
          subst h
          exact hc
      exact segsAux_clean rest (cur ++ [c]) hcur' s (by simpa [segsAux, hc] using hs)

theorem segsOf_clean (p : String) : ∀ s ∈ segsOf p, s.data ≠ [] ∧ ∀ c ∈ s.data, c ≠ '/' :=
  fun s hs => segsAux_clean p.data [] (by simp) s hs

theorem segsAux_append_slash : ∀ (cs cur rest : List Char), (∀ c ∈ cs, c ≠ '/') →
    cur ++ cs ≠ [] →
    segsAux (cs ++ '/' :: rest) cur = String.mk (cur ++ cs) :: segsAux rest []
  | [], cur, rest, _, hne => by
    cases cur with
    | nil => simp at hne
    | cons c0 cs0 => simp [segsAux, List.isEmpty]
  | c :: cs', cur, rest, hcs, hne => by
    have hc : c ≠ '/' := hcs c (List.mem_cons_self c cs')
    calc segsAux ((c :: cs') ++ '/' :: rest) cur
        = segsAux (cs' ++ '/' :: rest) (cur ++ [c]) := by simp [segsAux, hc]
      _ = String.mk ((cur ++ [c]) ++ cs') :: segsAux rest [] :=
          segsAux_append_slash cs' (cur ++ [c]) rest
            (fun c' h => hcs c' (List.mem_cons_of_mem c h)) (by simp)
      _ = String.mk (cur ++ c :: cs') :: segsAux rest [] := by simp

theorem segsAux_no_slash : ∀ (cs cur : List Char), (∀ c ∈ cs, c ≠ '/') →
    segsAux cs cur = if (cur ++ cs).isEmpty then [] else [String.mk (cur ++ cs)]
  | [], cur, _ => by simp [segsAux]
  | c :: cs', cur, hcs => by
    have hc : c ≠ '/' := hcs c (List.mem_cons_self c cs')
    calc segsAux (c :: cs') cur
        = segsAux cs' (cur ++ [c]) := by simp [segsAux, hc]
      _ = if ((cur ++ [c]) ++ cs').isEmpty then [] else [String.mk ((cur ++ [c]) ++ cs')] :=
          segsAux_no_slash cs' (cur ++ [c]) (fun c' h => hcs c' (List.mem_cons_of_mem c h))
      _ = if (cur ++ c :: cs').isEmpty then [] else [String.mk (cur ++ c :: cs')] := by simp

theorem segsAux_joinSegs : ∀ (t : List String),
    (∀ s ∈ t, s.data ≠ [] ∧ ∀ c ∈ s.data, c ≠ '/') →
    segsAux (joinSegs t).data [] = t
  | [], _ => by simp [joinSegs, segsAux]
  | [x], h => by
    have hx := h x (List.mem_cons_self x [])
    have hemp : x.data.isEmpty = false := by
      cases hd : x.data with
      | nil => exact absurd hd hx.1
      | cons c cs => simp
    rw [joinSegs, segsAux_no_slash x.data [] hx.2]
    simp [hemp]
  | x :: y :: rest, h => by
    have hx := h x (List.mem_cons_self x (y :: rest))
    have hslash : ("/" : String).data = ['/'] := rfl
    have hdata : (joinSegs (x :: y :: rest)).data
        = x.data ++ '/' :: (joinSegs (y :: rest)).data := by
      rw [joinSegs]
      simp [String.data_append, hslash]
    rw [hdata, segsAux_append_slash x.data [] (joinSegs (y :: rest)).data hx.2
      (by simpa using hx.1)]
    rw [segsAux_joinSegs (y :: rest) (fun s hs => h s (List.mem_cons_of_mem x hs))]
    simp

theorem segsOf_joinAbs (t : List String)
    (h : ∀ s ∈ t, s.data ≠ [] ∧ ∀ c ∈ s.data, c ≠ '/') :
    segsOf (joinAbs t) = t := by
  have hdata : (joinAbs t).data = '/' :: (joinSegs t).data := by
    rw [joinAbs]
    have hslash : ("/" : String).data = ['/'] := rfl
    simp [String.data_append, hslash]
  rw [segsOf, hdata]
  have e : segsAux ('/' :: (joinSegs t).data) [] = segsAux (joinSegs t).data [] := by
    simp [segsAux, List.isEmpty]
  rw [e, segsAux_joinSegs t h]

theorem resolveSegs_clean (base p : String) :
    ∀ s ∈ resolveSegs base p,
      (s.data ≠ [] ∧ ∀ c ∈ s.data, c ≠ '/') ∧ (s ≠ "" ∧ s ≠ "." ∧ s ≠ "..") := by
  intro s hs
  unfold resolveSegs at hs
  split at hs
  · rcases mem_normSegsAux (segsOf p) [] s hs with h | h
    · simp at h
    · exact ⟨segsOf_clean p s h.1, h.2⟩
  · rcases mem_normSegsAux (segsOf base ++ segsOf p) [] s hs with h | h
    · simp at h
    · refine ⟨?_, h.2⟩
      rcases List.mem_append.mp h.1 with h2 | h2
      · exact segsOf_clean base s h2
      · exact segsOf_clean p s h2

theorem pathSegments_pathResolve (base p : String) :
    pathSegments (pathResolve base p) = resolveSegs base p := by
  unfold pathSegments pathResolve
  rw [segsOf_joinAbs (resolveSegs base p) (fun s hs => (resolveSegs_clean base p s hs).1)]
  rw [normSegsAux_eq_append (resolveSegs base p) []
    (fun s hs => (resolveSegs_clean base p s hs).2)]
  simp

/-- The heart of the traversal guard: when `path.relative(base, resolved)`
does not start with `..`, the normalized base segments are a prefix of the
resolved path's segments — the resolved path is equal to or contained within
the base directory. -/
theorem guard_contained (base p : String)
    (h : strStartsWith (pathRelative base (pathResolve base p)) ".." = false) :
    pathSegments base <+: pathSegments (pathResolve base p) := by
  rw [pathSegments_pathResolve base p]
  unfold pathRelative at h
  rw [pathSegments_pathResolve base p] at h
  by_cases hc : commonPrefixLen (pathSegments base) (resolveSegs base p)
      = (pathSegments base).length
  · exact commonPrefixLen_eq_length _ _ hc
  · exfalso
    have hle := commonPrefixLen_le_left (pathSegments base) (resolveSegs base p)
    obtain ⟨k, hk⟩ : ∃ k, (pathSegments base).length
        - commonPrefixLen (pathSegments base) (resolveSegs base p) = k + 1 :=
      ⟨(pathSegments base).length
        - commonPrefixLen (pathSegments base) (resolveSegs base p) - 1, by omega⟩
    rw [hk, List.replicate_succ, List.cons_append, strStartsWith_joinSegs_dotdot] at h
    simp at h

theorem mem_setAdd {l : List String} {x q : String} (h : q ∈ setAdd l x) : q ∈ l ∨ q = x := by
  unfold setAdd at h
  split at h
  · exact Or.inl h
  · rcases List.mem_append.mp h with h1 | h1
    · exact Or.inl h1
    · simp at h1
      exact Or.inr h1

theorem normalizeStep_sound (root : Uri) (hroot : root.scheme = "file")
    (acc : List String) (p q : String)
    (hacc : ∀ r ∈ acc, isRemotePath r = false → pathSegments root.fsPath <+: pathSegments r)
    (hq : q ∈ normalizeStep (some root) acc p) (hrem : isRemotePath q = false) :
    pathSegments root.fsPath <+: pathSegments q := by
  by_cases hp : isRemotePath p = true
  · rw [normalizeStep, if_pos hp] at hq
    rcases mem_setAdd hq with h | h
    · exact hacc q h hrem
    · subst h
      rw [hp] at hrem
      cases hrem
  · have hp' : isRemotePath p = false := by simpa using hp
    simp only [normalizeStep, hp', hroot, Bool.false_eq_true, if_false, if_true] at hq
    split at hq
    · rcases mem_setAdd hq with h | h
      · exact hacc q h hrem
      · subst h
        next hguard =>
        exact guard_contained root.fsPath p (by simpa using hguard)
    · exact hacc q hq hrem

theorem normalizePaths_sound_aux (root : Uri) (hroot : root.scheme = "file") :
    ∀ (ps acc : List String),
      (∀ r ∈ acc, isRemotePath r = false → pathSegments root.fsPath <+: pathSegments r) →
      ∀ q ∈ ps.foldl (normalizeStep (some root)) acc, isRemotePath q = false →
        pathSegments root.fsPath <+: pathSegments q
  | [], acc, hacc, q, hq, hrem => hacc q (by simpa using hq) hrem
  | p :: ps, acc, hacc, q, hq, hrem =>
    normalizePaths_sound_aux root hroot ps (normalizeStep (some root) acc p)
      (fun r hr hremr => normalizeStep_sound root hroot acc p r hacc hr hremr)
      q (by simpa using hq) hrem

/-- C3.  For every reference list and file-scheme base directory, every
non-remote key `normalizePaths` outputs (a resolved absolute path) is equal
to or contained within the base directory, segment-wise; and normalizing the
reference `../../etc/passwd` against base `/workspace/project` yields an
empty key set — the traversing reference is dropped, not raised as an
error. -/
theorem C3_traversal_guard :
    (∀ (ps : List String) (root : Uri) (q : String),
        root.scheme = "file" → q ∈ normalizePaths ps (some root) →
        isRemotePath q = false →
        pathSegments root.fsPath <+: pathSegments q)
    ∧ normalizePaths ["../../etc/passwd"] (some ⟨"file", "/workspace/project"⟩) = [] := by
  constructor
  · intro ps root q hroot hq hrem
    exact normalizePaths_sound_aux root hroot ps [] (by simp) q hq hrem
  · decide

/-- Witness for C3 at a concrete in-base reference. -/
theorem C3_traversal_guard_witness :
    pathSegments (Uri.fsPath ⟨"file", "/base"⟩) <+: pathSegments "/base/sub/x.css" :=
  C3_traversal_guard.1 ["sub/x.css"] ⟨"file", "/base"⟩ "/base/sub/x.css" rfl
    (by decide) (by decide)

/-! ## Claim C8: deduplication -/

theorem setAdd_nodup {l : List String} (x : String) (h : l.Nodup) : (setAdd l x).Nodup := by
  unfold setAdd
  split
  · exact h
  · next hx =>
    refine List.Nodup.append h (List.nodup_singleton x) ?_
    intro a ha hb
    simp at hb
    subst hb
    exact hx ha

theorem normalizeStep_nodup (root? : Option Uri) (acc : List String) (p : String)
    (h : acc.Nodup) : (normalizeStep root? acc p).Nodup := by
  unfold normalizeStep
  split
  · exact setAdd_nodup _ h
  · split
    · exact h
    · split
      · split
        · exact setAdd_nodup _ h
        · exact h
      · split
        · exact setAdd_nodup _ h
        · exact h

theorem normalizePaths_nodup_aux (root? : Option Uri) :
    ∀ (ps acc : List String), acc.Nodup → (ps.foldl (normalizeStep root?) acc).Nodup
  | [], acc, h => by simpa using h
  | p :: ps, acc, h => by
    simpa using normalizePaths_nodup_aux root? ps (normalizeStep root? acc p)
      (normalizeStep_nodup root? acc p h)

/-- C8.  The normalizer's output is duplicate-free — any two raw references
that normalize to the same canonical key contribute exactly one occurrence
of that key — and the cache map is keyed by canonical key: resolving a key
that is already stored returns the stored record with the state (and hence
the cache map and fetch log) unchanged, never creating a second record. -/
theorem C8_dedup :
    (∀ (ps : List String) (root? : Option Uri), (normalizePaths ps root?).Nodup)
    ∧ (∀ (ps : List String) (root? : Option Uri) (k : String),
        k ∈ normalizePaths ps root? → (normalizePaths ps root?).count k = 1)
    ∧ (∀ (env : Env) (s : Sys) (k : String) (t : Theme),
        mapGet s.observedThemes k = some t →
        registerThemeRun env s k = (s, t)) := by
  refine ⟨?_, ?_, ?_⟩
  · intro ps root?
    exact normalizePaths_nodup_aux root? ps [] List.nodup_nil
  · intro ps root? k hk
    have hnodup : (normalizePaths ps root?).Nodup :=
      normalizePaths_nodup_aux root? ps [] List.nodup_nil
    have h1 := List.nodup_iff_count_le_one.mp hnodup k
    have h2 : 0 < (normalizePaths ps root?).count k := List.count_pos_iff.mpr hk
    omega
  · intro env s k t h
    simp [registerThemeRun, registerThemeCheck, h]

/-- Witness for C8: two distinct raw references normalizing to the same key
yield one occurrence of it. -/
theorem C8_dedup_witness :
    (normalizePaths ["a.css", "./a.css"] (some rootB)).count "/base/a.css" = 1 :=
  C8_dedup.2.1 ["a.css", "./a.css"] (some rootB) "/base/a.css" (by decide)

/-! ## Claims C9 and C10: workspace proxy GET handler -/

/-- C9.  When the mapped resource stats as a non-directory and reads
successfully, the proxy responds 200 with the content, `Content-Length` from
the stat size, `Content-Type` derived from the path's extension (set exactly
when the pathname has one), and `Last-Modified` from the stat mtime; when
the stat fails — the resource is missing or any other I/O error occurs —
the response is 404, identical for every error (no distinction between
not-found and other stat errors). -/
theorem C9_proxy_get :
    (∀ (pathname : String) (st : FileStat) (data : List Nat),
        st.type &&& 2 = 0 →
        handleGet pathname (Except.ok st) (Except.ok data) =
          { contentType := if extname pathname ≠ "" then some (mimeOf (extname pathname)) else none
            contentLength := some (toString st.size)
            lastModified := some (toUTCString st.mtime)
            status := some 200
            body := some (RespBody.buffer data) })
    ∧ (∀ (pathname msg : String) (reads : Except String (List Nat)),
        handleGet pathname (Except.error msg) reads =
          { contentType := if extname pathname ≠ "" then some (mimeOf (extname pathname)) else none
            contentLength := none
            lastModified := none
            status := some 404
            body := some (RespBody.text "Not found") }) := by
  constructor
  · intro pathname st data hdir
    simp only [handleGet, hdir, if_true, notFound]
    split <;> rfl
  · intro pathname msg reads
    simp only [handleGet, notFound]
    split <;> rfl

/-- Witness for C9 at a concrete stylesheet request and at a concrete stat
error. -/
theorem C9_proxy_get_witness :
    handleGet "/ws/style.css" (Except.ok { type := 1, mtime := 5, size := 3 })
        (Except.ok [1, 2, 3]) =
      { contentType := some "text/css", contentLength := some "3",
        lastModified := some "UTC:5", status := some 200,
        body := some (RespBody.buffer [1, 2, 3]) } :=
  (C9_proxy_get.1 "/ws/style.css" { type := 1, mtime := 5, size := 3 } [1, 2, 3]
    (by decide)).trans (by decide)

/-- C10.  When the mapped resource stats successfully but is a directory,
the proxy responds 404 — the directory is never served — while the
`Content-Length` and `Last-Modified` headers derived from the directory's
stat have already been set on the response. -/
theorem C10_proxy_directory :
    ∀ (pathname : String) (st : FileStat) (reads : Except String (List Nat)),
      st.type &&& 2 ≠ 0 →
      handleGet pathname (Except.ok st) reads =
        { contentType := if extname pathname ≠ "" then some (mimeOf (extname pathname)) else none
          contentLength := some (toString st.size)
          lastModified := some (toUTCString st.mtime)
          status := some 404
          body := some (RespBody.text "Not found") } := by
  intro pathname st reads hdir
  simp only [handleGet, hdir, if_false, notFound]
  split <;> rfl

/-- Witness for C10 at a concrete directory stat. -/
theorem C10_proxy_directory_witness :
    handleGet "/ws/dir" (Except.ok { type := 2, mtime := 7, size := 64 })
        (Except.ok []) =
      { contentType := none, contentLength := some "64",
        lastModified := some "UTC:7", status := some 404,
        body := some (RespBody.text "Not found") } :=
  (C10_proxy_directory "/ws/dir" { type := 2, mtime := 7, size := 64 } (Except.ok [])
    (by decide)).trans (by decide)
